import Mathlib

/-!
# Verification of the ecss flat iteration layer

Shallow embedding of `src/src/ecss_flat_iterator.h` (repository
`wagnerks/ecss_benchmarks`): the two view types `FlatView` and
`FlatComponentView`, their shared skip-dead cursor, and their
construction from the external registry/layout collaborator.

Modelling conventions:

* Machine pointers (`std::byte*`) are unbounded `Nat` addresses with `0`
  as the null pointer; `size_t` counts and strides are `Nat`.
* The liveness word that `skipDead` reads at a sector address
  (`reinterpret_cast<Memory::Sector*>(mData)->isAliveData`, a `uint32_t`)
  is supplied by a memory valuation `mem : Nat → Nat` mapping a sector
  base address to its `isAliveData` word.
* `__builtin_prefetch` has no semantic effect and is omitted.
* The external `Registry`/`SectorsArray`/`Layout` collaborator
  (`ecss/Registry.h`, not part of this repository) is abstracted as a
  `RegistryModel` record whose fields supply exactly what the
  constructors read from it: the array hosting a component type, that
  array's per-type layout data (`offset`, `isAliveMask`), its element
  count, its total stride, and its base address.
* The `uint16_t` offset table `mOffsets` stores each layout offset
  modulo `2^16 = 65536`, as the narrowing assignment
  `mOffsets[idx++] = layout->getLayoutData<Components>().offset` does.
-/

set_option autoImplicit false

namespace Ecss

/-- Per-component layout data, as returned by the external
`layout->getLayoutData<Component>()`: a byte offset inside a sector and
that component's liveness-bit mask. -/
structure LayoutData where
  offset : Nat
  isAliveMask : Nat
deriving DecidableEq, Repr

/-- Abstraction of the external `Registry`/`SectorsArray`/`Layout`
collaborator, providing exactly the operations the view constructors
invoke.  Component types and array identifiers are `Nat` codes.
`arrayLayout a c` is what `getLayoutData<c>()` returns on array `a`:
the constructors never check that `c` is actually grouped into `a`, so
for a foreign component the field simply models whatever (unspecified)
data the external call yields. -/
structure RegistryModel where
  hostArray : Nat → Nat
  arrayLayout : Nat → Nat → LayoutData
  arraySize : Nat → Nat
  arrayStride : Nat → Nat
  arrayBase : Nat → Nat

/-- State of `FlatView::Iterator`: current byte position, stride,
remaining slot count and combined liveness mask (default-constructed
state is all zero / null, as in `Iterator() = default`). -/
structure FlatIter where
  mData : Nat := 0
  mStride : Nat := 0
  mRemaining : Nat := 0
  mAliveMask : Nat := 0
deriving DecidableEq, Repr

/-- State of `FlatComponentView::Iterator`: additionally carries the
`uint16_t` offset table `mOffsets` (entries are `< 65536` by
construction). -/
structure FlatCompIter where
  mData : Nat := 0
  mStride : Nat := 0
  mRemaining : Nat := 0
  mAliveMask : Nat := 0
  mOffsets : List Nat := []
deriving DecidableEq, Repr

/-- The skip-dead loop body shared verbatim by
`FlatView::Iterator::skipDead` and `FlatComponentView::Iterator::skipDead`:
`while (mRemaining > 0) { if ((sector->isAliveData & mAliveMask) == mAliveMask) return; mData += mStride; --mRemaining; }`.
Returns the final `(mData, mRemaining)` pair.  Recursion is structural
on the remaining count, which the loop decrements on every iteration. -/
def skipDeadGo (mem : Nat → Nat) (mask stride : Nat) : Nat → Nat → Nat × Nat
  | data, 0 => (data, 0)
  | data, r + 1 =>
    if Nat.land (mem data) mask = mask then (data, r + 1)
    else skipDeadGo mem mask stride (data + stride) r

/-- The member `FlatView::Iterator::skipDead` acting on the whole iterator state. -/
def FlatIter.skipDead (mem : Nat → Nat) (st : FlatIter) : FlatIter :=
  let p := skipDeadGo mem st.mAliveMask st.mStride st.mData st.mRemaining
  { st with mData := p.1, mRemaining := p.2 }

/-- The four-argument `FlatView::Iterator` constructor: stores the
fields and runs `skipDead()`. -/
def FlatIter.init (mem : Nat → Nat) (data stride count mask : Nat) : FlatIter :=
  FlatIter.skipDead mem ⟨data, stride, count, mask⟩

/-- The member `FlatView::Iterator::operator++`: advance one stride, decrement the
remaining count, re-run `skipDead()`.  (The source asserts
`mRemaining > 0` before the decrement; all theorems below invoke `next`
only on states with `mRemaining ≠ 0`.) -/
def FlatIter.next (mem : Nat → Nat) (st : FlatIter) : FlatIter :=
  FlatIter.skipDead mem
    { st with mData := st.mData + st.mStride, mRemaining := st.mRemaining - 1 }

/-- The member `FlatView::Iterator::operator==`: positional comparison of `mData`
only. -/
def FlatIter.beq (a b : FlatIter) : Bool :=
  a.mData == b.mData

/-- The member `FlatComponentView::Iterator::skipDead` (textually identical loop). -/
def FlatCompIter.skipDead (mem : Nat → Nat) (st : FlatCompIter) : FlatCompIter :=
  let p := skipDeadGo mem st.mAliveMask st.mStride st.mData st.mRemaining
  { st with mData := p.1, mRemaining := p.2 }

/-- The five-argument `FlatComponentView::Iterator` constructor. -/
def FlatCompIter.init (mem : Nat → Nat) (data stride count mask : Nat)
    (offsets : List Nat) : FlatCompIter :=
  FlatCompIter.skipDead mem ⟨data, stride, count, mask, offsets⟩

/-- The member `FlatComponentView::Iterator::operator++`. -/
def FlatCompIter.next (mem : Nat → Nat) (st : FlatCompIter) : FlatCompIter :=
  FlatCompIter.skipDead mem
    { st with mData := st.mData + st.mStride, mRemaining := st.mRemaining - 1 }

/-- The member `FlatComponentView::Iterator::operator==`: positional comparison of
`mData` only; `mOffsets` and the other fields are ignored. -/
def FlatCompIter.beq (a b : FlatCompIter) : Bool :=
  a.mData == b.mData

/-- Forgetting the offset table turns a `FlatComponentView` iterator
state into a `FlatView` iterator state; the traversal logic of the two
is identical. -/
def FlatCompIter.toFlat (st : FlatCompIter) : FlatIter :=
  ⟨st.mData, st.mStride, st.mRemaining, st.mAliveMask⟩

/-- The member `FlatComponentView::Iterator::makeValue` yields, besides the entity
id, one reference per requested component at address
`base + mOffsets[Is]`; in the embedding a yielded reference is its
address.  This is the list of those addresses, in pack order. -/
def FlatCompIter.derefAddrs (st : FlatCompIter) : List Nat :=
  st.mOffsets.map (fun o => st.mData + o)

/-- Snapshot held by a `FlatView`: base pointer, element count, stride
and combined liveness mask. -/
structure FlatView where
  mBasePtr : Nat := 0
  mSize : Nat := 0
  mStride : Nat := 0
  mAliveMask : Nat := 0
deriving DecidableEq, Repr

/-- Snapshot held by a `FlatComponentView`: additionally the `uint16_t`
offset table. -/
structure FlatCompView where
  mBasePtr : Nat := 0
  mSize : Nat := 0
  mStride : Nat := 0
  mAliveMask : Nat := 0
  mOffsets : List Nat := []
deriving DecidableEq, Repr

/-- The `FlatView(Registry*)` constructor.  The empty component pack is
rejected at compile time by
`static_assert(sizeof...(Components) > 0, "Need at least one component")`;
the embedding reports that compile-time rejection as an `error` result.
Otherwise: resolve the container hosting the first requested component,
snapshot its size, read the layout's total stride, fold the requested
components' liveness masks together with bitwise or (in pack order,
starting from 0), and read the base pointer only when the size is
positive (otherwise `mBasePtr` keeps its null default). -/
def flatViewOfRegistry (reg : RegistryModel) (comps : List Nat) :
    Except String FlatView :=
  match comps with
  | [] => .error "static_assert failed: Need at least one component"
  | c0 :: _ =>
    let arr := reg.hostArray c0
    let size := reg.arraySize arr
    .ok { mBasePtr := if 0 < size then reg.arrayBase arr else 0
          mSize := size
          mStride := reg.arrayStride arr
          mAliveMask :=
            comps.foldl (fun m c => Nat.lor m (reg.arrayLayout arr c).isAliveMask) 0 }

/-- The `FlatComponentView(Registry*)` constructor.  An empty component
pack makes the member alias
`FirstComponent = std::tuple_element_t<0, std::tuple<Components...>>`
ill-formed, so the class cannot be instantiated; the embedding reports
that compile-time rejection as an `error` result.  Otherwise as for
`FlatView`, plus the offset table: each requested component's layout
offset is narrowed into a `uint16_t` slot, i.e. stored modulo 65536,
in pack order. -/
def flatComponentViewOfRegistry (reg : RegistryModel) (comps : List Nat) :
    Except String FlatCompView :=
  match comps with
  | [] => .error "ill-formed: tuple_element_t<0, tuple<>> in FirstComponent"
  | c0 :: _ =>
    let arr := reg.hostArray c0
    let size := reg.arraySize arr
    .ok { mBasePtr := if 0 < size then reg.arrayBase arr else 0
          mSize := size
          mStride := reg.arrayStride arr
          mAliveMask :=
            comps.foldl (fun m c => Nat.lor m (reg.arrayLayout arr c).isAliveMask) 0
          mOffsets := comps.map (fun c => (reg.arrayLayout arr c).offset % 65536) }

/-- The member `FlatView::begin()`: `Iterator(mBasePtr, mStride, mSize, mAliveMask)`. -/
def FlatView.beginIt (mem : Nat → Nat) (v : FlatView) : FlatIter :=
  FlatIter.init mem v.mBasePtr v.mStride v.mSize v.mAliveMask

/-- The member `FlatView::end()`: `Iterator(mBasePtr + mStride * mSize, mStride, 0, mAliveMask)`
(its `skipDead()` is a no-op at remaining count 0). -/
def FlatView.endIt (mem : Nat → Nat) (v : FlatView) : FlatIter :=
  FlatIter.init mem (v.mBasePtr + v.mStride * v.mSize) v.mStride 0 v.mAliveMask

/-- The member `FlatComponentView::begin()`. -/
def FlatCompView.beginIt (mem : Nat → Nat) (w : FlatCompView) : FlatCompIter :=
  FlatCompIter.init mem w.mBasePtr w.mStride w.mSize w.mAliveMask w.mOffsets

/-- The member `FlatComponentView::end()`. -/
def FlatCompView.endIt (mem : Nat → Nat) (w : FlatCompView) : FlatCompIter :=
  FlatCompIter.init mem (w.mBasePtr + w.mStride * w.mSize) w.mStride 0
    w.mAliveMask w.mOffsets

/-- Sector visibility: `(sector->isAliveData & mAliveMask) == mAliveMask`
at address `a`, the test `skipDead` stops on. -/
def visible (mem : Nat → Nat) (mask a : Nat) : Bool :=
  Nat.land (mem a) mask == mask

/-- The addresses a `FlatView` iteration dereferences, using the
remaining count as a (structurally decreasing) fuel: at a non-end state
the current position is yielded and `operator++` is applied.  Fuel at
least `st.mRemaining` is always sufficient because each `next` strictly
decreases the remaining count. -/
def iterAddrsGo (mem : Nat → Nat) : Nat → FlatIter → List Nat
  | 0, _ => []
  | fuel + 1, st =>
    if st.mRemaining = 0 then []
    else st.mData :: iterAddrsGo mem fuel (FlatIter.next mem st)

/-- The address sequence of a `FlatView` iteration started at `st`. -/
def iterAddrs (mem : Nat → Nat) (st : FlatIter) : List Nat :=
  iterAddrsGo mem st.mRemaining st

/-- The C++ range-for loop itself:
`for (it = begin; it != end; ++it) use(*it);` — the stop test is the
positional comparison `it == end` of `operator==`, not the remaining
count.  Fuelled; `mSize + 1` fuel suffices for a loop started at
`begin()`. -/
def iterLoopGo (mem : Nat → Nat) (endAddr : Nat) : Nat → FlatIter → List Nat
  | 0, _ => []
  | fuel + 1, st =>
    if st.mData = endAddr then []
    else st.mData :: iterLoopGo mem endAddr fuel (FlatIter.next mem st)

/-- The sequence of sector addresses a `for (auto&& s : view)` loop
dereferences on a `FlatView`: run from `begin()` until positional
equality with `end()`. -/
def FlatView.seq (mem : Nat → Nat) (v : FlatView) : List Nat :=
  iterLoopGo mem (FlatView.endIt mem v).mData (v.mSize + 1) (FlatView.beginIt mem v)

/-- Analogue of `iterAddrsGo` for `FlatComponentView` iterators (same loop over the
state that additionally carries `mOffsets`). -/
def compIterAddrsGo (mem : Nat → Nat) : Nat → FlatCompIter → List Nat
  | 0, _ => []
  | fuel + 1, st =>
    if st.mRemaining = 0 then []
    else st.mData :: compIterAddrsGo mem fuel (FlatCompIter.next mem st)

/-- The positional range-for loop on a `FlatComponentView` iterator. -/
def compIterLoopGo (mem : Nat → Nat) (endAddr : Nat) : Nat → FlatCompIter → List Nat
  | 0, _ => []
  | fuel + 1, st =>
    if st.mData = endAddr then []
    else st.mData :: compIterLoopGo mem endAddr fuel (FlatCompIter.next mem st)

/-- The sequence of sector addresses a range-for loop dereferences on a
`FlatComponentView`. -/
def FlatCompView.seq (mem : Nat → Nat) (w : FlatCompView) : List Nat :=
  compIterLoopGo mem (FlatCompView.endIt mem w).mData (w.mSize + 1)
    (FlatCompView.beginIt mem w)

/-- The reference subsequence a view must produce according to the
spec: of the `count` physical sector slots `base, base + stride, …`,
keep exactly the visible ones, in physical order. -/
def visibleAddrs (mem : Nat → Nat) (mask base stride count : Nat) : List Nat :=
  ((List.range count).filter (fun i => visible mem mask (base + stride * i))).map
    (fun i => base + stride * i)

/-- A write of value `v` to address `a` (a store through a yielded
component reference); memory is a byte/value map `Nat → Nat`. -/
def writeMem (m : Nat → Nat) (a v : Nat) : Nat → Nat :=
  fun x => if x = a then v else m x

/-- A read from address `a` (an independent Layout-offset read). -/
def readMem (m : Nat → Nat) (a : Nat) : Nat :=
  m a

section SkipDeadLemmas

variable (mem : Nat → Nat) (mask stride : Nat)

/-- The skip-dead loop never increases the remaining count. -/
lemma skipDeadGo_snd_le : ∀ r data, (skipDeadGo mem mask stride data r).2 ≤ r := by
  intro r
  induction r with
  | zero => intro data; simp [skipDeadGo]
  | succ n ih =>
    intro data
    by_cases h : Nat.land (mem data) mask = mask
    · simp [skipDeadGo, h]
    · simpa [skipDeadGo, h] using Nat.le_succ_of_le (ih (data + stride))

/-- The skip-dead loop advances the position in lockstep with the
remaining count: the final position is the start plus one stride per
slot skipped. -/
lemma skipDeadGo_fst : ∀ r data,
    (skipDeadGo mem mask stride data r).1 =
      data + stride * (r - (skipDeadGo mem mask stride data r).2) := by
  intro r
  induction r with
  | zero => intro data; simp [skipDeadGo]
  | succ n ih =>
    intro data
    by_cases h : Nat.land (mem data) mask = mask
    · simp [skipDeadGo, h]
    · have hle := skipDeadGo_snd_le mem mask stride n (data + stride)
      simp only [skipDeadGo, h, if_false]
      rw [ih (data + stride)]
      have : n + 1 - (skipDeadGo mem mask stride (data + stride) n).2 =
          (n - (skipDeadGo mem mask stride (data + stride) n).2) + 1 := by omega
      rw [this, Nat.mul_succ]
      ring

/-- If the skip-dead loop stops before exhausting the range, it stops on
a visible slot. -/
lemma skipDeadGo_stops_visible : ∀ r data,
    (skipDeadGo mem mask stride data r).2 ≠ 0 →
      Nat.land (mem (skipDeadGo mem mask stride data r).1) mask = mask := by
  intro r
  induction r with
  | zero => intro data h; simp [skipDeadGo] at h
  | succ n ih =>
    intro data h
    by_cases hv : Nat.land (mem data) mask = mask
    · simp [skipDeadGo, hv]
    · simp only [skipDeadGo, hv, if_false] at h ⊢
      exact ih (data + stride) h

/-- If no slot of the range is visible, the skip-dead loop runs the
range to exhaustion, stopping at `data + stride * r` with remaining 0. -/
lemma skipDeadGo_none_visible : ∀ r data,
    (∀ i, i < r → Nat.land (mem (data + stride * i)) mask ≠ mask) →
      skipDeadGo mem mask stride data r = (data + stride * r, 0) := by
  intro r
  induction r with
  | zero => intro data _; simp [skipDeadGo]
  | succ n ih =>
    intro data hnone
    have h0 : Nat.land (mem data) mask ≠ mask := by
      simpa using hnone 0 (Nat.succ_pos n)
    have hrest : ∀ i, i < n → Nat.land (mem (data + stride + stride * i)) mask ≠ mask := by
      intro i hi
      have := hnone (i + 1) (by omega)
      simpa [Nat.mul_succ, Nat.add_assoc, Nat.add_comm, Nat.add_left_comm] using this
    simp only [skipDeadGo, h0, if_false]
    rw [ih (data + stride) hrest]
    have : data + stride + stride * n = data + stride * (n + 1) := by
      rw [Nat.mul_succ]; ring
    rw [this]

end SkipDeadLemmas

/-- Recursive form of the reference subsequence `visibleAddrs`, used as
the induction motive of the traversal proof. -/
def visibleAddrsRec (mem : Nat → Nat) (mask stride : Nat) : Nat → Nat → List Nat
  | 0, _ => []
  | n + 1, base =>
    if visible mem mask base then base :: visibleAddrsRec mem mask stride n (base + stride)
    else visibleAddrsRec mem mask stride n (base + stride)

section TraversalLemmas

variable (mem : Nat → Nat) (mask stride : Nat)

/-- Appending one more slot at the far end of the range appends its
address exactly when it is visible. -/
lemma visibleAddrs_snoc (k base : Nat) :
    visibleAddrs mem mask base stride (k + 1) =
      visibleAddrs mem mask base stride k ++
        (if visible mem mask (base + stride * k) then [base + stride * k] else []) := by
  rw [visibleAddrs, visibleAddrs, List.range_succ, List.filter_append, List.map_append]
  by_cases h : visible mem mask (base + stride * k)
  · simp [h]
  · simp [h]

/-- Peeling the first slot off the front of the range: its address
leads the subsequence exactly when it is visible, followed by the
subsequence of the shifted remainder. -/
lemma visibleAddrs_succ : ∀ n base,
    visibleAddrs mem mask base stride (n + 1) =
      if visible mem mask base then
        base :: visibleAddrs mem mask (base + stride) stride n
      else visibleAddrs mem mask (base + stride) stride n := by
  intro n
  induction n with
  | zero =>
    intro base
    by_cases h : visible mem mask base
    · simp [visibleAddrs, List.range_succ, h]
    · simp [visibleAddrs, List.range_succ, h]
  | succ n ih =>
    intro base
    have harg : base + stride * (n + 1) = base + stride + stride * n := by
      rw [Nat.mul_succ]; ring
    rw [visibleAddrs_snoc mem mask stride (n + 1) base, ih base,
      visibleAddrs_snoc mem mask stride n (base + stride), harg]
    by_cases h : visible mem mask base
    · simp [h]
    · simp [h]

/-- The two forms of the reference subsequence agree. -/
lemma visibleAddrs_eq_rec : ∀ count base,
    visibleAddrs mem mask base stride count = visibleAddrsRec mem mask stride count base := by
  intro count
  induction count with
  | zero => intro base; simp [visibleAddrs, visibleAddrsRec]
  | succ n ih =>
    intro base
    rw [visibleAddrs_succ mem mask stride n base, visibleAddrsRec]
    by_cases h : visible mem mask base
    · simp [h, ih]
    · simp [h, ih]

/-- The remaining count after `operator++` is strictly below the old
one (on a non-end state). -/
lemma FlatIter.next_mRemaining_le (st : FlatIter) :
    (FlatIter.next mem st).mRemaining ≤ st.mRemaining - 1 := by
  simpa [FlatIter.next, FlatIter.skipDead] using
    skipDeadGo_snd_le mem st.mAliveMask st.mStride (st.mRemaining - 1) (st.mData + st.mStride)

/-- Any fuel at least the state's remaining count computes the same
address sequence. -/
lemma iterAddrsGo_congr_fuel : ∀ fuel fuel' (st : FlatIter),
    st.mRemaining ≤ fuel → st.mRemaining ≤ fuel' →
      iterAddrsGo mem fuel st = iterAddrsGo mem fuel' st := by
  intro fuel
  induction fuel with
  | zero =>
    intro fuel' st h _
    have h0 : st.mRemaining = 0 := Nat.le_zero.mp h
    cases fuel' with
    | zero => rfl
    | succ f => simp [iterAddrsGo, h0]
  | succ f ih =>
    intro fuel' st _ h'
    by_cases h0 : st.mRemaining = 0
    · cases fuel' with
      | zero => simp [iterAddrsGo, h0]
      | succ g => simp [iterAddrsGo, h0]
    · cases fuel' with
      | zero => omega
      | succ g =>
        simp only [iterAddrsGo, h0, if_false]
        have hle := FlatIter.next_mRemaining_le mem st
        exact congrArg _ (ih g (FlatIter.next mem st) (by omega) (by omega))

/-- Central traversal theorem for the shared cursor: starting the
iterator at slot `data` with `r` slots remaining and walking it to
exhaustion yields exactly the visible slots of the range, in physical
order. -/
lemma iterAddrsGo_init_eq : ∀ r data fuel, r ≤ fuel →
    iterAddrsGo mem fuel (FlatIter.init mem data stride r mask) =
      visibleAddrsRec mem mask stride r data := by
  intro r
  induction r with
  | zero =>
    intro data fuel _
    have hstate : FlatIter.init mem data stride 0 mask = ⟨data, stride, 0, mask⟩ := by
      simp [FlatIter.init, FlatIter.skipDead, skipDeadGo]
    cases fuel with
    | zero => simp [visibleAddrsRec, iterAddrsGo]
    | succ f => simp [hstate, visibleAddrsRec, iterAddrsGo]
  | succ n ih =>
    intro data fuel hfuel
    cases fuel with
    | zero => omega
    | succ f =>
      by_cases hv : Nat.land (mem data) mask = mask
      · have hstate : FlatIter.init mem data stride (n + 1) mask =
            ⟨data, stride, n + 1, mask⟩ := by
          simp [FlatIter.init, FlatIter.skipDead, skipDeadGo, hv]
        have hnext : FlatIter.next mem (⟨data, stride, n + 1, mask⟩ : FlatIter) =
            FlatIter.init mem (data + stride) stride n mask := by
          simp [FlatIter.next, FlatIter.init]
        rw [hstate]
        simp only [iterAddrsGo, Nat.succ_ne_zero, if_false, hnext]
        rw [ih (data + stride) f (by omega)]
        have hvis : visible mem mask data = true := by
          simp [visible, hv]
        simp [visibleAddrsRec, hvis]
      · have hstate : FlatIter.init mem data stride (n + 1) mask =
            FlatIter.init mem (data + stride) stride n mask := by
          simp [FlatIter.init, FlatIter.skipDead, skipDeadGo, hv]
        rw [hstate, ih (data + stride) (f + 1) (by omega)]
        have hvis : visible mem mask data = false := by
          simp [visible, hv]
        simp [visibleAddrsRec, hvis]

/-- A `FlatView` traversal from `begin()` (counted by remaining slots)
yields exactly the visible subsequence of the snapshot range. -/
lemma iterAddrs_beginIt (v : FlatView) :
    iterAddrs mem (FlatView.beginIt mem v) =
      visibleAddrs mem v.mAliveMask v.mBasePtr v.mStride v.mSize := by
  have hrem : (FlatView.beginIt mem v).mRemaining ≤ v.mSize := by
    simpa [FlatView.beginIt, FlatIter.init, FlatIter.skipDead] using
      skipDeadGo_snd_le mem v.mAliveMask v.mStride v.mSize v.mBasePtr
  rw [iterAddrs,
    iterAddrsGo_congr_fuel mem (FlatView.beginIt mem v).mRemaining v.mSize
      (FlatView.beginIt mem v) (le_refl _) hrem]
  rw [FlatView.beginIt, iterAddrsGo_init_eq mem v.mAliveMask v.mStride v.mSize v.mBasePtr
    v.mSize (le_refl _)]
  exact (visibleAddrs_eq_rec mem v.mAliveMask v.mStride v.mSize v.mBasePtr).symm

end TraversalLemmas

/-- Iterator states of a `FlatView` reachable from `begin()` by legal
advances (`operator++` is applied only to non-end states, as the
range-for loop does). -/
inductive ViewReach (mem : Nat → Nat) (v : FlatView) : FlatIter → Prop
  | start : ViewReach mem v (FlatView.beginIt mem v)
  | step {st : FlatIter} : ViewReach mem v st → st.mRemaining ≠ 0 →
      ViewReach mem v (FlatIter.next mem st)

/-- Iterator states of a `FlatComponentView` reachable from `begin()`
by legal advances. -/
inductive CompViewReach (mem : Nat → Nat) (w : FlatCompView) : FlatCompIter → Prop
  | start : CompViewReach mem w (FlatCompView.beginIt mem w)
  | step {st : FlatCompIter} : CompViewReach mem w st → st.mRemaining ≠ 0 →
      CompViewReach mem w (FlatCompIter.next mem st)

section InvariantLemmas

variable (mem : Nat → Nat)

/-- The pass `skipDead` does not change the stride or mask fields. -/
lemma FlatIter.skipDead_fields (st : FlatIter) :
    (FlatIter.skipDead mem st).mStride = st.mStride ∧
      (FlatIter.skipDead mem st).mAliveMask = st.mAliveMask := by
  constructor <;> rfl

/-- Cursor invariant maintained from `begin()`: stride and mask are the
snapshot's, the remaining count never exceeds the snapshot size, and
the position sits exactly `stride * (size - remaining)` bytes past the
base. -/
lemma viewReach_invariant {v : FlatView} {st : FlatIter}
    (h : ViewReach mem v st) :
    st.mStride = v.mStride ∧ st.mAliveMask = v.mAliveMask ∧
      st.mRemaining ≤ v.mSize ∧
      st.mData = v.mBasePtr + v.mStride * (v.mSize - st.mRemaining) := by
  induction h with
  | start =>
    refine ⟨rfl, rfl, ?_, ?_⟩
    · exact skipDeadGo_snd_le mem v.mAliveMask v.mStride v.mSize v.mBasePtr
    · exact skipDeadGo_fst mem v.mAliveMask v.mStride v.mSize v.mBasePtr
  | step hre hne ih =>
    rename_i st'
    obtain ⟨hstr, hmask, hrem, hdata⟩ := ih
    set r := st'.mRemaining with hr
    have hle : (FlatIter.next mem st').mRemaining ≤ r - 1 :=
      FlatIter.next_mRemaining_le mem st'
    refine ⟨by simp [FlatIter.next, FlatIter.skipDead, hstr],
      by simp [FlatIter.next, FlatIter.skipDead, hmask], by omega, ?_⟩
    have hfst :
        (FlatIter.next mem st').mData =
          (st'.mData + st'.mStride) +
            st'.mStride * ((r - 1) - (FlatIter.next mem st').mRemaining) := by
      simpa [FlatIter.next, FlatIter.skipDead] using
        skipDeadGo_fst mem st'.mAliveMask st'.mStride (r - 1) (st'.mData + st'.mStride)
    rw [hfst, hdata, hstr]
    set r' := (FlatIter.next mem st').mRemaining with hr'
    have hcount : (v.mSize - r) + 1 + ((r - 1) - r') = v.mSize - r' := by omega
    calc v.mBasePtr + v.mStride * (v.mSize - r) + v.mStride + v.mStride * ((r - 1) - r')
        = v.mBasePtr + v.mStride * ((v.mSize - r) + 1 + ((r - 1) - r')) := by ring
      _ = v.mBasePtr + v.mStride * (v.mSize - r') := by rw [hcount]

/-- The `end()` iterator's position is `base + stride * size`. -/
lemma FlatView.endIt_mData (v : FlatView) :
    (FlatView.endIt mem v).mData = v.mBasePtr + v.mStride * v.mSize := by
  simp [FlatView.endIt, FlatIter.init, FlatIter.skipDead, skipDeadGo]

/-- On every reachable state, positional comparison against the end
sentinel agrees with exhaustion of the remaining count (given a
positive stride, as the source asserts with `FLAT_ASSUME(mStride > 0)`). -/
lemma viewReach_end_iff {v : FlatView} {st : FlatIter}
    (hs : 0 < v.mStride) (h : ViewReach mem v st) :
    (st.mData = v.mBasePtr + v.mStride * v.mSize ↔ st.mRemaining = 0) := by
  obtain ⟨_, _, hrem, hdata⟩ := viewReach_invariant mem h
  constructor
  · intro he
    rw [hdata] at he
    have := Nat.eq_of_mul_eq_mul_left hs (Nat.add_left_cancel he)
    omega
  · intro he
    rw [hdata, he, Nat.sub_zero]

/-- For reachable states, the positional range-for loop and the
remaining-count recursion produce the same address sequence. -/
lemma iterLoopGo_eq_addrsGo {v : FlatView} (hs : 0 < v.mStride) :
    ∀ fuel (st : FlatIter), ViewReach mem v st →
      iterLoopGo mem (v.mBasePtr + v.mStride * v.mSize) fuel st =
        iterAddrsGo mem fuel st := by
  intro fuel
  induction fuel with
  | zero => intro st _; rfl
  | succ f ih =>
    intro st hre
    have hiff := viewReach_end_iff mem hs hre
    by_cases h0 : st.mRemaining = 0
    · have : st.mData = v.mBasePtr + v.mStride * v.mSize := hiff.mpr h0
      simp [iterLoopGo, iterAddrsGo, this, h0]
    · have hne : st.mData ≠ v.mBasePtr + v.mStride * v.mSize := fun he => h0 (hiff.mp he)
      simp only [iterLoopGo, iterAddrsGo, hne, h0, if_false]
      exact congrArg _ (ih (FlatIter.next mem st) (ViewReach.step hre h0))

/-- The range-for loop on a `FlatView` produces exactly the visible
subsequence of the snapshot range, in physical order. -/
lemma FlatView.seq_eq_visibleAddrs (v : FlatView) (hs : 0 < v.mStride) :
    FlatView.seq mem v = visibleAddrs mem v.mAliveMask v.mBasePtr v.mStride v.mSize := by
  have hrem : (FlatView.beginIt mem v).mRemaining ≤ v.mSize :=
    skipDeadGo_snd_le mem v.mAliveMask v.mStride v.mSize v.mBasePtr
  rw [FlatView.seq, FlatView.endIt_mData,
    iterLoopGo_eq_addrsGo mem hs (v.mSize + 1) (FlatView.beginIt mem v) (ViewReach.start),
    iterAddrsGo_congr_fuel mem (v.mSize + 1) (FlatView.beginIt mem v).mRemaining
      (FlatView.beginIt mem v) (by omega) (le_refl _)]
  exact iterAddrs_beginIt mem v

end InvariantLemmas

/-- Forgetting the offset table of a `FlatComponentView` leaves a
`FlatView` with the same snapshot. -/
def FlatCompView.toFlatView (w : FlatCompView) : FlatView :=
  ⟨w.mBasePtr, w.mSize, w.mStride, w.mAliveMask⟩

section ErasureLemmas

variable (mem : Nat → Nat)

/-- Offset erasure commutes with `skipDead`. -/
lemma FlatCompIter.toFlat_skipDead (st : FlatCompIter) :
    (FlatCompIter.skipDead mem st).toFlat = FlatIter.skipDead mem st.toFlat := by
  rfl

/-- Offset erasure commutes with `operator++`. -/
lemma FlatCompIter.toFlat_next (st : FlatCompIter) :
    (FlatCompIter.next mem st).toFlat = FlatIter.next mem st.toFlat := by
  rfl

/-- Both `skipDead` and `operator++` never change the offset table. -/
lemma FlatCompIter.next_mOffsets (st : FlatCompIter) :
    (FlatCompIter.next mem st).mOffsets = st.mOffsets := by
  rfl

/-- The component-view positional loop visits the same addresses as the
flat-view positional loop on the offset-erased state. -/
lemma compIterLoopGo_eq (endAddr : Nat) : ∀ fuel (st : FlatCompIter),
    compIterLoopGo mem endAddr fuel st = iterLoopGo mem endAddr fuel st.toFlat := by
  intro fuel
  induction fuel with
  | zero => intro st; rfl
  | succ f ih =>
    intro st
    by_cases h : st.mData = endAddr
    · simp [compIterLoopGo, iterLoopGo, FlatCompIter.toFlat, h]
    · simp only [compIterLoopGo, iterLoopGo, FlatCompIter.toFlat, h, if_false]
      exact congrArg _ (ih (FlatCompIter.next mem st))

/-- Erasing the offsets of `begin()` of a component view gives
`begin()` of the erased view. -/
lemma FlatCompView.toFlat_beginIt (w : FlatCompView) :
    (FlatCompView.beginIt mem w).toFlat = FlatView.beginIt mem w.toFlatView := by
  rfl

/-- The component-view loop produces the same address sequence as the
erased flat view. -/
lemma FlatCompView.seq_eq_toFlatView (w : FlatCompView) :
    FlatCompView.seq mem w = FlatView.seq mem w.toFlatView := by
  rw [FlatCompView.seq, FlatView.seq, compIterLoopGo_eq mem _ _ (FlatCompView.beginIt mem w),
    FlatCompView.toFlat_beginIt]
  rfl

/-- Every reachable component-view iterator state still carries the
view's offset table. -/
lemma compViewReach_mOffsets {w : FlatCompView} {st : FlatCompIter}
    (h : CompViewReach mem w st) : st.mOffsets = w.mOffsets := by
  induction h with
  | start => rfl
  | step hre hne ih => rename_i st'; simpa [FlatCompIter.next_mOffsets] using ih

/-- Erasure maps reachable component-view states to reachable flat-view
states, so the flat cursor invariant transfers. -/
lemma compViewReach_toFlat {w : FlatCompView} {st : FlatCompIter}
    (h : CompViewReach mem w st) : ViewReach mem w.toFlatView st.toFlat := by
  induction h with
  | start => rw [FlatCompView.toFlat_beginIt]; exact ViewReach.start
  | step hre hne ih =>
    rename_i st'
    rw [FlatCompIter.toFlat_next]
    exact ViewReach.step ih hne

/-- Constructing a `FlatComponentView` and erasing its offsets agrees
with constructing the `FlatView` over the same components: both
snapshot the same base, size, stride and combined mask. -/
lemma compView_erase_ctor (reg : RegistryModel) (comps : List Nat)
    (w : FlatCompView) (hw : flatComponentViewOfRegistry reg comps = .ok w) :
    flatViewOfRegistry reg comps = .ok w.toFlatView := by
  match comps with
  | [] => simp [flatComponentViewOfRegistry] at hw
  | c0 :: rest =>
    simp only [flatComponentViewOfRegistry, Except.ok.injEq] at hw
    simp only [flatViewOfRegistry, Except.ok.injEq]
    rw [← hw]
    rfl

end ErasureLemmas

section MembershipLemmas

variable (mem : Nat → Nat) (mask stride : Nat)

/-- With a positive stride the slot addresses are distinct, and a slot's
address belongs to the visible subsequence exactly when the slot is
visible. -/
lemma mem_visibleAddrs (base count i : Nat) (hs : 0 < stride) (hi : i < count) :
    (base + stride * i) ∈ visibleAddrs mem mask base stride count ↔
      Nat.land (mem (base + stride * i)) mask = mask := by
  constructor
  · intro hmem
    obtain ⟨j, hj, hfj⟩ := List.mem_map.mp hmem
    have hpj := List.mem_filter.mp hj
    have hij : j = i := by
      have := Nat.add_left_cancel hfj
      exact Nat.eq_of_mul_eq_mul_left hs this
    have := hpj.2
    rw [hij] at this
    simpa [visible] using this
  · intro hvis
    apply List.mem_map.mpr
    refine ⟨i, List.mem_filter.mpr ⟨List.mem_range.mpr hi, ?_⟩, rfl⟩
    simpa [visible] using hvis

end MembershipLemmas

/-! ### Sample inputs used by the witness theorems

A registry with two grouped arrays: array 0 hosts component types 0 and
1 (offsets 16 and 32, liveness bits 1 and 2, stride 64, four sectors at
base 1024); array 1 hosts component type 2 (stride 32, two sectors at
base 4096). -/

/-- Concrete registry used by witnesses. -/
def sampleReg : RegistryModel where
  hostArray := fun c => if c = 2 then 1 else 0
  arrayLayout := fun a c =>
    if a = 0 then
      if c = 0 then ⟨16, 1⟩ else if c = 1 then ⟨32, 2⟩ else ⟨0, 0⟩
    else
      if c = 2 then ⟨16, 1⟩ else ⟨0, 0⟩
  arraySize := fun a => if a = 0 then 4 else 2
  arrayStride := fun a => if a = 0 then 64 else 32
  arrayBase := fun a => if a = 0 then 1024 else 4096

/-- Concrete liveness memory for array 0 of `sampleReg`: sectors 0 and 2
have both components alive, sector 1 only component 0, sector 3 none. -/
def sampleMem : Nat → Nat :=
  fun a => if a = 1024 then 3 else if a = 1088 then 1 else if a = 1152 then 3 else 0

/-- The `FlatView` over components 0 and 1 of `sampleReg`. -/
def vEx : FlatView := ⟨1024, 4, 64, 3⟩

/-- The `FlatComponentView` over components 0 and 1 of `sampleReg`. -/
def wEx : FlatCompView := ⟨1024, 4, 64, 3, [16, 32]⟩

/-- C1: Visibility correctness — for a view (either `FlatView` or
`FlatComponentView`) constructed over an array for a non-empty request
list, a sector slot's address appears in the view's output sequence iff
`(sector.isAliveData & combinedMask) == combinedMask` holds for it,
where the combined mask is the bitwise or of the requested components'
liveness masks (folded in pack order by the constructor), for every
liveness pattern `mem` over the sectors. -/
theorem flatIterator_visibility_correct (reg : RegistryModel) (comps : List Nat)
    (c0 : Nat) (rest : List Nat) (hc : comps = c0 :: rest) (mem : Nat → Nat)
    (v : FlatView) (hv : flatViewOfRegistry reg comps = .ok v)
    (w : FlatCompView) (hw : flatComponentViewOfRegistry reg comps = .ok w)
    (hs : 0 < v.mStride) (i : Nat) (hi : i < v.mSize) :
    v.mAliveMask =
      comps.foldl (fun m c => Nat.lor m (reg.arrayLayout (reg.hostArray c0) c).isAliveMask) 0 ∧
    ((v.mBasePtr + v.mStride * i) ∈ FlatView.seq mem v ↔
      Nat.land (mem (v.mBasePtr + v.mStride * i)) v.mAliveMask = v.mAliveMask) ∧
    ((v.mBasePtr + v.mStride * i) ∈ FlatCompView.seq mem w ↔
      Nat.land (mem (v.mBasePtr + v.mStride * i)) v.mAliveMask = v.mAliveMask) := by
  have hvw : v = w.toFlatView := by
    have := compView_erase_ctor reg comps w hw
    rw [hv] at this
    exact (Except.ok.injEq _ _).mp this
  have hmask : v.mAliveMask =
      comps.foldl (fun m c => Nat.lor m (reg.arrayLayout (reg.hostArray c0) c).isAliveMask) 0 := by
    subst hc
    simp only [flatViewOfRegistry, Except.ok.injEq] at hv
    rw [← hv]
  refine ⟨hmask, ?_, ?_⟩
  · rw [FlatView.seq_eq_visibleAddrs mem v hs]
    exact mem_visibleAddrs mem v.mAliveMask v.mStride v.mBasePtr v.mSize i hs hi
  · rw [FlatCompView.seq_eq_toFlatView mem w, ← hvw, FlatView.seq_eq_visibleAddrs mem _ hs]
    exact mem_visibleAddrs mem v.mAliveMask v.mStride v.mBasePtr v.mSize i hs hi

/-- C1 witness: concrete instantiation at `sampleReg`, components
`[0, 1]`, slot 2 (alive pattern 3, mask 3). -/
theorem flatIterator_visibility_correct_witness :
    ([0, 1] : List Nat) = 0 :: [1] ∧
    flatViewOfRegistry sampleReg [0, 1] = .ok vEx ∧
    flatComponentViewOfRegistry sampleReg [0, 1] = .ok wEx ∧
    0 < vEx.mStride ∧ 2 < vEx.mSize ∧
    ((vEx.mBasePtr + vEx.mStride * 2) ∈ FlatView.seq sampleMem vEx ↔
      Nat.land (sampleMem (vEx.mBasePtr + vEx.mStride * 2)) vEx.mAliveMask = vEx.mAliveMask) :=
  ⟨rfl, rfl, rfl, by decide, by decide,
    (flatIterator_visibility_correct sampleReg [0, 1] 0 [1] rfl sampleMem vEx rfl wEx rfl
      (by decide) 2 (by decide)).2.1⟩

/-- C2: Order preservation — the sequence of sector addresses produced
by iterating a view from `begin()` to `end()` (positional stop test) is
exactly `visibleAddrs`, the subsequence of the snapshot's physical slot
order consisting of the visible slots: each visible sector appears
exactly once, in physical order, with no duplicates; this holds for
both `FlatView` and `FlatComponentView`. -/
theorem flatIterator_order_preserving (reg : RegistryModel) (comps : List Nat)
    (mem : Nat → Nat)
    (v : FlatView) (hv : flatViewOfRegistry reg comps = .ok v)
    (w : FlatCompView) (hw : flatComponentViewOfRegistry reg comps = .ok w)
    (hs : 0 < v.mStride) :
    FlatView.seq mem v = visibleAddrs mem v.mAliveMask v.mBasePtr v.mStride v.mSize ∧
    FlatCompView.seq mem w = visibleAddrs mem v.mAliveMask v.mBasePtr v.mStride v.mSize := by
  have hvw : v = w.toFlatView := by
    have := compView_erase_ctor reg comps w hw
    rw [hv] at this
    exact (Except.ok.injEq _ _).mp this
  refine ⟨FlatView.seq_eq_visibleAddrs mem v hs, ?_⟩
  rw [FlatCompView.seq_eq_toFlatView mem w, ← hvw]
  exact FlatView.seq_eq_visibleAddrs mem v hs

/-- C2 witness: at the sample inputs the produced sequence is the
two visible slot addresses `[1024, 1152]`, in physical order. -/
theorem flatIterator_order_preserving_witness :
    flatViewOfRegistry sampleReg [0, 1] = .ok vEx ∧
    FlatView.seq sampleMem vEx =
      visibleAddrs sampleMem vEx.mAliveMask vEx.mBasePtr vEx.mStride vEx.mSize ∧
    FlatView.seq sampleMem vEx = [1024, 1152] :=
  ⟨rfl,
    (flatIterator_order_preserving sampleReg [0, 1] sampleMem vEx rfl wEx rfl (by decide)).1,
    by decide⟩

/-- The `end()` of a component view also sits at `base + stride * size`. -/
lemma FlatCompView.endIt_position (mem : Nat → Nat) (w : FlatCompView) :
    (FlatCompView.endIt mem w).mData = w.mBasePtr + w.mStride * w.mSize := by
  simp [FlatCompView.endIt, FlatCompIter.init, FlatCompIter.skipDead, skipDeadGo]

/-- When no slot of the snapshot is visible, `begin()`'s skip-dead pass
exhausts the whole range: it stops at the end position with remaining
count 0. -/
lemma FlatView.beginIt_none_visible (mem : Nat → Nat) (v : FlatView)
    (hnone : ∀ i, i < v.mSize →
      Nat.land (mem (v.mBasePtr + v.mStride * i)) v.mAliveMask ≠ v.mAliveMask) :
    (FlatView.beginIt mem v).mData = v.mBasePtr + v.mStride * v.mSize ∧
      (FlatView.beginIt mem v).mRemaining = 0 := by
  have h := skipDeadGo_none_visible mem v.mAliveMask v.mStride v.mSize v.mBasePtr hnone
  constructor
  · simp [FlatView.beginIt, FlatIter.init, FlatIter.skipDead, h]
  · simp [FlatView.beginIt, FlatIter.init, FlatIter.skipDead, h]

/-- An empty-array registry used by the C4 witness: every array has
zero sectors. -/
def regEmpty : RegistryModel :=
  ⟨fun _ => 0, fun _ _ => ⟨0, 1⟩, fun _ => 0, fun _ => 8, fun _ => 0⟩

/-- The all-zero liveness memory: no component is alive anywhere. -/
def memZero : Nat → Nat := fun _ => 0

/-- The `FlatView` over component 0 of `regEmpty`. -/
def vEmptyEx : FlatView := ⟨0, 0, 8, 1⟩

/-- The `FlatComponentView` over component 0 of `regEmpty`. -/
def wEmptyEx : FlatCompView := ⟨0, 0, 8, 1, [0]⟩

/-- The `FlatView` over component 2 of `sampleReg` (array 1). -/
def vArr1Ex : FlatView := ⟨4096, 2, 32, 1⟩

/-- The `FlatComponentView` over component 2 of `sampleReg`. -/
def wArr1Ex : FlatCompView := ⟨4096, 2, 32, 1, [16]⟩

/-- C4: Emptiness — for a view over an array with zero sectors, and for
a view whose combined mask is satisfied by no sector of the array
(the zero-sector case is the vacuous instance of the hypothesis), the
iteration has length 0 and `begin() == end()` holds immediately, so no
sector is ever dereferenced; for both view types. -/
theorem flatIterator_emptiness (reg : RegistryModel) (comps : List Nat) (mem : Nat → Nat)
    (v : FlatView) (hv : flatViewOfRegistry reg comps = .ok v)
    (w : FlatCompView) (hw : flatComponentViewOfRegistry reg comps = .ok w)
    (hnone : ∀ i, i < v.mSize →
      Nat.land (mem (v.mBasePtr + v.mStride * i)) v.mAliveMask ≠ v.mAliveMask) :
    FlatIter.beq (FlatView.beginIt mem v) (FlatView.endIt mem v) = true ∧
    FlatView.seq mem v = [] ∧
    FlatCompIter.beq (FlatCompView.beginIt mem w) (FlatCompView.endIt mem w) = true ∧
    FlatCompView.seq mem w = [] := by
  have hvw : v = w.toFlatView := by
    have := compView_erase_ctor reg comps w hw
    rw [hv] at this
    exact (Except.ok.injEq _ _).mp this
  obtain ⟨hdata, hrem⟩ := FlatView.beginIt_none_visible mem v hnone
  have hseq : FlatView.seq mem v = [] := by
    rw [FlatView.seq, FlatView.endIt_mData]
    simp [iterLoopGo, hdata]
  refine ⟨?_, hseq, ?_, ?_⟩
  · simp [FlatIter.beq, hdata, FlatView.endIt_mData]
  · have hb : (FlatCompView.beginIt mem w).mData = (FlatView.beginIt mem w.toFlatView).mData := rfl
    simp [FlatCompIter.beq, hb, ← hvw, hdata, FlatCompView.endIt_position,
      show w.mBasePtr + w.mStride * w.mSize = v.mBasePtr + v.mStride * v.mSize from by
        rw [hvw]; rfl]
  · rw [FlatCompView.seq_eq_toFlatView mem w, ← hvw, hseq]

/-- C4 witness: concrete instantiations both for a zero-sector array
(`regEmpty`) and for a mask matched by no sector (`sampleReg` array 1
under the all-zero liveness memory). -/
theorem flatIterator_emptiness_witness :
    flatViewOfRegistry regEmpty [0] = .ok vEmptyEx ∧
    flatViewOfRegistry sampleReg [2] = .ok vArr1Ex ∧
    (∀ i, i < vArr1Ex.mSize →
      Nat.land (memZero (vArr1Ex.mBasePtr + vArr1Ex.mStride * i)) vArr1Ex.mAliveMask ≠
        vArr1Ex.mAliveMask) ∧
    (FlatIter.beq (FlatView.beginIt memZero vEmptyEx) (FlatView.endIt memZero vEmptyEx) = true ∧
      FlatView.seq memZero vEmptyEx = []) ∧
    (FlatIter.beq (FlatView.beginIt memZero vArr1Ex) (FlatView.endIt memZero vArr1Ex) = true ∧
      FlatCompView.seq memZero wArr1Ex = []) :=
  ⟨rfl, rfl, by decide,
    ⟨(flatIterator_emptiness regEmpty [0] memZero vEmptyEx rfl wEmptyEx rfl (by decide)).1,
      (flatIterator_emptiness regEmpty [0] memZero vEmptyEx rfl wEmptyEx rfl (by decide)).2.1⟩,
    ⟨(flatIterator_emptiness sampleReg [2] memZero vArr1Ex rfl wArr1Ex rfl (by decide)).1,
      (flatIterator_emptiness sampleReg [2] memZero vArr1Ex rfl wArr1Ex rfl
        (by decide)).2.2.2⟩⟩

/-- C5: End-sentinel invariant — on every iterator state reachable from
`begin()` by legal advances: the cursor position equals
`base + stride * (count - remaining)`; the position equals
`base + stride * count` exactly when the remaining count is 0; that
position is the `end()` sentinel; the sentinel is compared by position
equality only (`operator==` tests `mData` alone); and the sentinel
position is never dereferenced (it is not among the addresses the loop
yields). -/
theorem flatIterator_end_sentinel (mem : Nat → Nat) (v : FlatView) (st : FlatIter)
    (hre : ViewReach mem v st) (hs : 0 < v.mStride) :
    st.mData = v.mBasePtr + v.mStride * (v.mSize - st.mRemaining) ∧
    (st.mData = v.mBasePtr + v.mStride * v.mSize ↔ st.mRemaining = 0) ∧
    (FlatView.endIt mem v).mData = v.mBasePtr + v.mStride * v.mSize ∧
    (FlatIter.beq st (FlatView.endIt mem v) = true ↔
      st.mData = (FlatView.endIt mem v).mData) ∧
    (FlatView.endIt mem v).mData ∉ FlatView.seq mem v := by
  obtain ⟨_, _, _, hdata⟩ := viewReach_invariant mem hre
  refine ⟨hdata, viewReach_end_iff mem hs hre, FlatView.endIt_mData mem v, ?_, ?_⟩
  · simp [FlatIter.beq]
  · rw [FlatView.seq_eq_visibleAddrs mem v hs, FlatView.endIt_mData]
    intro hmem
    obtain ⟨j, hj, hfj⟩ := List.mem_map.mp hmem
    have hjr := List.mem_range.mp (List.mem_filter.mp hj).1
    have : j = v.mSize := Nat.eq_of_mul_eq_mul_left hs (Nat.add_left_cancel hfj)
    omega

/-- C5 witness: the invariant at `begin()` of the sample view. -/
theorem flatIterator_end_sentinel_witness :
    ViewReach sampleMem vEx (FlatView.beginIt sampleMem vEx) ∧ 0 < vEx.mStride ∧
    ((FlatView.beginIt sampleMem vEx).mData =
        vEx.mBasePtr + vEx.mStride * (vEx.mSize - (FlatView.beginIt sampleMem vEx).mRemaining) ∧
      ((FlatView.beginIt sampleMem vEx).mData = vEx.mBasePtr + vEx.mStride * vEx.mSize ↔
        (FlatView.beginIt sampleMem vEx).mRemaining = 0)) :=
  ⟨ViewReach.start, by decide,
    ⟨(flatIterator_end_sentinel sampleMem vEx (FlatView.beginIt sampleMem vEx)
        ViewReach.start (by decide)).1,
      (flatIterator_end_sentinel sampleMem vEx (FlatView.beginIt sampleMem vEx)
        ViewReach.start (by decide)).2.1⟩⟩

/-- The default-constructed `FlatView::Iterator` (`Iterator() = default`):
null position, zero stride, zero remaining, zero mask. -/
def FlatIter.defaultIt : FlatIter := {}

/-- The default-constructed `FlatComponentView::Iterator`. -/
def FlatCompIter.defaultIt : FlatCompIter := {}

/-- C9: Iterator equality is purely positional — for both iterator
types, `operator==` returns true exactly when the current data pointers
are equal, regardless of stride, remaining count, liveness mask or (for
the component iterator) the offset table; in particular a
default-constructed iterator, whose position is null, compares equal to
any iterator whose position is null. -/
theorem flatIterator_equality_positional :
    (∀ a b : FlatIter, FlatIter.beq a b = true ↔ a.mData = b.mData) ∧
    (∀ a b : FlatCompIter, FlatCompIter.beq a b = true ↔ a.mData = b.mData) ∧
    FlatIter.defaultIt.mData = 0 ∧ FlatCompIter.defaultIt.mData = 0 ∧
    (∀ b : FlatIter, b.mData = 0 → FlatIter.beq FlatIter.defaultIt b = true) ∧
    (∀ b : FlatCompIter, b.mData = 0 → FlatCompIter.beq FlatCompIter.defaultIt b = true) := by
  refine ⟨?_, ?_, rfl, rfl, ?_, ?_⟩
  · intro a b; simp [FlatIter.beq]
  · intro a b; simp [FlatCompIter.beq]
  · intro b hb; simp [FlatIter.beq, FlatIter.defaultIt, hb]
  · intro b hb; simp [FlatCompIter.beq, FlatCompIter.defaultIt, hb]

/-- C9 witness: a null-positioned iterator with nonzero stride,
remaining count and mask compares equal to the default iterator, and
two iterators differing in every field but the position compare
equal. -/
theorem flatIterator_equality_positional_witness :
    ((⟨7, 1, 2, 3⟩ : FlatIter).mData = (⟨7, 9, 8, 6⟩ : FlatIter).mData) ∧
    FlatIter.beq ⟨7, 1, 2, 3⟩ ⟨7, 9, 8, 6⟩ = true ∧
    ((⟨0, 9, 7, 5⟩ : FlatIter).mData = 0) ∧
    FlatIter.beq FlatIter.defaultIt ⟨0, 9, 7, 5⟩ = true :=
  ⟨rfl, (flatIterator_equality_positional.1 ⟨7, 1, 2, 3⟩ ⟨7, 9, 8, 6⟩).mpr rfl, rfl,
    flatIterator_equality_positional.2.2.2.2.1 ⟨0, 9, 7, 5⟩ rfl⟩

/-- C6: Zero-component rejection — for both view types, a view over an
empty list of requested component types is rejected at construction:
`FlatView` by
`static_assert(sizeof...(Components) > 0, "Need at least one component")`
and `FlatComponentView` because its member alias
`FirstComponent = std::tuple_element_t<0, std::tuple<Components...>>`
is ill-formed for an empty pack, so no usable view is produced.  (The
embedding surfaces both compile-time rejections as `error` results of
the constructor models.) -/
theorem flatIterator_zero_components_rejected (reg : RegistryModel) :
    flatViewOfRegistry reg [] =
      .error "static_assert failed: Need at least one component" ∧
    flatComponentViewOfRegistry reg [] =
      .error "ill-formed: tuple_element_t<0, tuple<>> in FirstComponent" :=
  ⟨rfl, rfl⟩

/-- C7 counterexample: components 0 and 2 of `sampleReg` are hosted in
two different arrays (0 and 1), yet constructing either view over
`[0, 2]` succeeds — no error is reported.  The view is built entirely
from array 0's layout, which reports mask 0 and offset 0 for the
foreign component 2, so the combined mask is 1: the foreign component
is silently ignored rather than rejected. -/
theorem flatIterator_ungrouped_accepted :
    sampleReg.hostArray 0 ≠ sampleReg.hostArray 2 ∧
    flatViewOfRegistry sampleReg [0, 2] = .ok ⟨1024, 4, 64, 1⟩ ∧
    flatComponentViewOfRegistry sampleReg [0, 2] = .ok ⟨1024, 4, 64, 1, [16, 0]⟩ := by
  refine ⟨by decide, rfl, rfl⟩

/-- C7 as amended: neither constructor validates grouping.  For every
non-empty request list — whether or not the requested components share
an array — construction succeeds, resolving the hosting array from the
first requested component alone and computing the mask (and offsets)
from whatever that array's layout reports for each requested type; the
grouping precondition is entirely the caller's obligation. -/
theorem flatIterator_no_grouping_validation (reg : RegistryModel) (comps : List Nat)
    (c0 : Nat) (rest : List Nat) (hc : comps = c0 :: rest) :
    flatViewOfRegistry reg comps =
      .ok { mBasePtr := if 0 < reg.arraySize (reg.hostArray c0) then
              reg.arrayBase (reg.hostArray c0) else 0
            mSize := reg.arraySize (reg.hostArray c0)
            mStride := reg.arrayStride (reg.hostArray c0)
            mAliveMask := comps.foldl
              (fun m c => Nat.lor m (reg.arrayLayout (reg.hostArray c0) c).isAliveMask) 0 } ∧
    flatComponentViewOfRegistry reg comps =
      .ok { mBasePtr := if 0 < reg.arraySize (reg.hostArray c0) then
              reg.arrayBase (reg.hostArray c0) else 0
            mSize := reg.arraySize (reg.hostArray c0)
            mStride := reg.arrayStride (reg.hostArray c0)
            mAliveMask := comps.foldl
              (fun m c => Nat.lor m (reg.arrayLayout (reg.hostArray c0) c).isAliveMask) 0
            mOffsets := comps.map
              (fun c => (reg.arrayLayout (reg.hostArray c0) c).offset % 65536) } := by
  subst hc
  exact ⟨rfl, rfl⟩

/-- C7 witness: the amended statement at the ungrouped request
`[0, 2]` of `sampleReg`. -/
theorem flatIterator_no_grouping_validation_witness :
    ([0, 2] : List Nat) = 0 :: [2] ∧
    flatViewOfRegistry sampleReg [0, 2] =
      .ok { mBasePtr := if 0 < sampleReg.arraySize (sampleReg.hostArray 0) then
              sampleReg.arrayBase (sampleReg.hostArray 0) else 0
            mSize := sampleReg.arraySize (sampleReg.hostArray 0)
            mStride := sampleReg.arrayStride (sampleReg.hostArray 0)
            mAliveMask := List.foldl
              (fun m c => Nat.lor m (sampleReg.arrayLayout (sampleReg.hostArray 0) c).isAliveMask)
              0 [0, 2] } :=
  ⟨rfl, (flatIterator_no_grouping_validation sampleReg [0, 2] 0 [2] rfl).1⟩

/-- The stored offset table of a constructed component view: each
requested component's layout offset, narrowed into a `uint16_t` slot. -/
lemma compView_mOffsets (reg : RegistryModel) (comps : List Nat)
    (c0 : Nat) (rest : List Nat) (hc : comps = c0 :: rest)
    (w : FlatCompView) (hw : flatComponentViewOfRegistry reg comps = .ok w) :
    w.mOffsets =
      comps.map (fun c => (reg.arrayLayout (reg.hostArray c0) c).offset % 65536) := by
  subst hc
  simp only [flatComponentViewOfRegistry, Except.ok.injEq] at hw
  rw [← hw]

/-- A registry whose single array reports layout offset 65536 (one past
the `uint16_t` range) with stride 70000: used to exhibit the narrowing.
The narrowed stored offset is `65536 % 65536 = 0`. -/
def regBig : RegistryModel :=
  ⟨fun _ => 0, fun _ _ => ⟨65536, 1⟩, fun _ => 1, fun _ => 70000, fun _ => 0⟩

/-- Liveness memory with every sector's component alive (word 1). -/
def memOne : Nat → Nat := fun _ => 1

/-- The component view constructed by `regBig` over component 0. -/
def wBig : FlatCompView := ⟨0, 1, 70000, 1, [0]⟩

/-- C3 counterexample: with a layout offset of 65536 the claim as
stated fails.  Construction stores `65536 % 65536 = 0` in the
`uint16_t` offset table, so at the (visible) sector at base 0 the
yielded reference aliases address `0 + 0 = 0`, not the Layout-offset
address `0 + 65536`; a write through the yielded reference is invisible
to a subsequent independent Layout-offset read, which still returns the
old value 0 instead of the written 42. -/
theorem flatComponentView_offset_aliasing_counterexample :
    flatComponentViewOfRegistry regBig [0] = .ok wBig ∧
    (regBig.arrayLayout (regBig.hostArray 0) 0).offset = 65536 ∧
    FlatCompView.seq memOne wBig = [0] ∧
    (FlatCompIter.derefAddrs (FlatCompView.beginIt memOne wBig))[0]? = some 0 ∧
    (0 : Nat) ≠ (FlatCompView.beginIt memOne wBig).mData + 65536 ∧
    readMem (writeMem memZero 0 42) ((FlatCompView.beginIt memOne wBig).mData + 65536) = 0 :=
  ⟨rfl, rfl, by decide, by decide, by decide, by decide⟩

/-- C3 as amended: offset correctness and mutation-through-reference
hold for every requested component whose Layout byte offset fits the
`uint16_t` table, i.e. is below 65536 (the narrowing forces exactly
this restriction; see the counterexample).  At every reachable iterator
state, the reference yielded for the k-th requested component aliases
exactly the bytes at (sector position + that component's Layout byte
offset), and a write through the yielded reference is observable by a
subsequent independent Layout-offset read of the same sector — the
reference is a live alias, with no buffering or copy-back. -/
theorem flatComponentView_offset_aliasing (reg : RegistryModel) (comps : List Nat)
    (c0 : Nat) (rest : List Nat) (hc : comps = c0 :: rest)
    (w : FlatCompView) (hw : flatComponentViewOfRegistry reg comps = .ok w)
    (k c : Nat) (hk : comps[k]? = some c)
    (ho : (reg.arrayLayout (reg.hostArray c0) c).offset < 65536)
    (mem : Nat → Nat) (st : FlatCompIter) (hre : CompViewReach mem w st) :
    (FlatCompIter.derefAddrs st)[k]? =
      some (st.mData + (reg.arrayLayout (reg.hostArray c0) c).offset) ∧
    ∀ (m : Nat → Nat) (val : Nat),
      readMem (writeMem m (st.mData + (reg.arrayLayout (reg.hostArray c0) c).offset) val)
        (st.mData + (reg.arrayLayout (reg.hostArray c0) c).offset) = val := by
  have hoff : st.mOffsets =
      comps.map (fun c => (reg.arrayLayout (reg.hostArray c0) c).offset % 65536) := by
    rw [compViewReach_mOffsets mem hre, compView_mOffsets reg comps c0 rest hc w hw]
  constructor
  · rw [FlatCompIter.derefAddrs, List.getElem?_map, hoff, List.getElem?_map, hk]
    simp [Nat.mod_eq_of_lt ho]
  · intro m val
    simp [readMem, writeMem]

/-- C3 witness: the amended statement at `sampleReg`, component 0
(offset 16), at `begin()` of the sample component view. -/
theorem flatComponentView_offset_aliasing_witness :
    flatComponentViewOfRegistry sampleReg [0, 1] = .ok wEx ∧
    ([0, 1] : List Nat)[0]? = some 0 ∧
    (sampleReg.arrayLayout (sampleReg.hostArray 0) 0).offset < 65536 ∧
    CompViewReach sampleMem wEx (FlatCompView.beginIt sampleMem wEx) ∧
    (FlatCompIter.derefAddrs (FlatCompView.beginIt sampleMem wEx))[0]? =
      some ((FlatCompView.beginIt sampleMem wEx).mData +
        (sampleReg.arrayLayout (sampleReg.hostArray 0) 0).offset) :=
  ⟨rfl, rfl, by decide, CompViewReach.start,
    (flatComponentView_offset_aliasing sampleReg [0, 1] 0 [1] rfl wEx rfl 0 0 rfl
      (by decide) sampleMem (FlatCompView.beginIt sampleMem wEx) CompViewReach.start).1⟩

/-- C10: 16-bit offset narrowing — `FlatComponentView` stores each
requested component's Layout byte offset in a `uint16_t` slot of
`mOffsets`, i.e. reduced modulo 2^16; consequently at every reachable
iterator state the yielded reference for the k-th component is at
(sector position + offset mod 65536), and that address equals the
Layout's true offset address exactly when the true offset is below
65536. -/
theorem flatComponentView_offset_16bit (reg : RegistryModel) (comps : List Nat)
    (c0 : Nat) (rest : List Nat) (hc : comps = c0 :: rest)
    (w : FlatCompView) (hw : flatComponentViewOfRegistry reg comps = .ok w)
    (k c : Nat) (hk : comps[k]? = some c) :
    w.mOffsets[k]? = some ((reg.arrayLayout (reg.hostArray c0) c).offset % 65536) ∧
    (∀ (mem : Nat → Nat) (st : FlatCompIter), CompViewReach mem w st →
      (FlatCompIter.derefAddrs st)[k]? =
        some (st.mData + (reg.arrayLayout (reg.hostArray c0) c).offset % 65536)) ∧
    (∀ d : Nat,
      d + (reg.arrayLayout (reg.hostArray c0) c).offset % 65536 =
          d + (reg.arrayLayout (reg.hostArray c0) c).offset ↔
        (reg.arrayLayout (reg.hostArray c0) c).offset < 65536) := by
  have hw' : w.mOffsets =
      comps.map (fun c => (reg.arrayLayout (reg.hostArray c0) c).offset % 65536) :=
    compView_mOffsets reg comps c0 rest hc w hw
  refine ⟨by rw [hw', List.getElem?_map, hk]; rfl, ?_, ?_⟩
  · intro mem st hre
    rw [FlatCompIter.derefAddrs, List.getElem?_map, compViewReach_mOffsets mem hre, hw',
      List.getElem?_map, hk]
    rfl
  · intro d
    constructor
    · intro he
      have := Nat.add_left_cancel he
      have hlt : (reg.arrayLayout (reg.hostArray c0) c).offset % 65536 < 65536 :=
        Nat.mod_lt _ (by omega)
      omega
    · intro hlt
      rw [Nat.mod_eq_of_lt hlt]

/-- C10 witness: at `regBig` (true offset 65536) the stored slot is 0
and the yielded address differs from the Layout-offset address; the
iff instantiated at sector position 0. -/
theorem flatComponentView_offset_16bit_witness :
    flatComponentViewOfRegistry regBig [0] = .ok wBig ∧
    ([0] : List Nat)[0]? = some 0 ∧
    wBig.mOffsets[0]? = some ((regBig.arrayLayout (regBig.hostArray 0) 0).offset % 65536) ∧
    ((0 : Nat) + (regBig.arrayLayout (regBig.hostArray 0) 0).offset % 65536 =
        0 + (regBig.arrayLayout (regBig.hostArray 0) 0).offset ↔
      (regBig.arrayLayout (regBig.hostArray 0) 0).offset < 65536) :=
  ⟨rfl, rfl,
    (flatComponentView_offset_16bit regBig [0] 0 [] rfl wBig rfl 0 0 rfl).1,
    (flatComponentView_offset_16bit regBig [0] 0 [] rfl wBig rfl 0 0 rfl).2.2 0⟩

/-- The observable events of a view constructor, in program order:
taking and dropping the registry read lock, and the three registry
reads (element count, layout data, base pointer). -/
inductive CtorEv where
  | lockAcquire
  | lockRelease
  | readSize
  | readLayout
  | readBase
deriving DecidableEq, Repr

/-- The event trace of either view constructor, transliterated from the
source: in the thread-safe configuration the scoped
`auto lock = mSectors->readLock()` is taken, `mSectors->size()` is read,
and the lock is destroyed at the closing brace of the
`if constexpr (ThreadSafe)` block; only then are
`mSectors->getLayout()` (stride, masks, offsets) and — when the size is
positive — `mSectors->at(0)` read.  Both `FlatView` and
`FlatComponentView` constructors have this exact shape. -/
def ctorEvents (threadSafe : Bool) (size : Nat) : List CtorEv :=
  (if threadSafe then [.lockAcquire, .readSize, .lockRelease] else [.readSize]) ++
    [.readLayout] ++ (if 0 < size then [.readBase] else [])

/-- Whether some occurrence of event `e` in the trace executes while
the read lock is held, starting from lock depth `d` (the depth counted
before each event takes effect). -/
def occursLocked (e : CtorEv) : Nat → List CtorEv → Bool
  | _, [] => false
  | d, x :: rest =>
    let d' := match x with
      | CtorEv.lockAcquire => d + 1
      | CtorEv.lockRelease => d - 1
      | _ => d
    (x == e && decide (0 < d)) || occursLocked e d' rest

/-- The lock depth after running a whole trace from depth `d`. -/
def lockDepth : Nat → List CtorEv → Nat
  | d, [] => d
  | d, x :: rest =>
    lockDepth (match x with
      | CtorEv.lockAcquire => d + 1
      | CtorEv.lockRelease => d - 1
      | _ => d) rest

/-- C8 counterexample: in the thread-safe configuration with a
non-empty array, the base-pointer read does occur during construction
but no occurrence of it executes under the read lock — the lock scope
closes after the element-count read, before `getLayout()` and `at(0)`
are read.  The claim that the lock covers the snapshot of both the
element count and the base pointer is therefore false on this code. -/
theorem flatView_lock_covers_base_counterexample :
    CtorEv.readBase ∈ ctorEvents true 1 ∧
    occursLocked CtorEv.readBase 0 (ctorEvents true 1) = false ∧
    occursLocked CtorEv.readSize 0 (ctorEvents true 1) = true := by
  decide

/-- C8 as amended: in the thread-safe configuration, view construction
acquires the read lock exactly once and the lock covers only the
element-count read; it is released before the layout and base-pointer
reads and before construction returns (final lock depth 0), and in the
non-thread-safe configuration no lock event occurs at all.  Iteration
(`begin()`, `end()`, advance, dereference) is modelled by pure
functions of the snapshot (`FlatView.seq`, `FlatIter.next`, …) that
take no lock: no lock is held during iteration. -/
theorem flatView_lock_discipline (size : Nat) :
    occursLocked CtorEv.readSize 0 (ctorEvents true size) = true ∧
    occursLocked CtorEv.readLayout 0 (ctorEvents true size) = false ∧
    occursLocked CtorEv.readBase 0 (ctorEvents true size) = false ∧
    lockDepth 0 (ctorEvents true size) = 0 ∧
    (ctorEvents true size).count CtorEv.lockAcquire = 1 ∧
    CtorEv.lockAcquire ∉ ctorEvents false size ∧
    CtorEv.lockRelease ∉ ctorEvents false size := by
  match size with
  | 0 => decide
  | n + 1 =>
    have h : ctorEvents true (n + 1) =
        [.lockAcquire, .readSize, .lockRelease, .readLayout, .readBase] := by
      simp [ctorEvents]
    have h' : ctorEvents false (n + 1) = [.readSize, .readLayout, .readBase] := by
      simp [ctorEvents]
    rw [h, h']
    decide

end Ecss
